import Mathlib

set_option autoImplicit false

/-!
Shallow embedding of `src/albert/encoder.rs` (rust-bert, ALBERT encoder stack):
`AlbertLayer`, `AlbertLayerGroup` and `AlbertTransformer` with their `new` and
`forward_t` functions.  Tensor arithmetic is delegated by the source to the
`tch` runtime; here tensors are modelled as a free term algebra over the
operations the encoder invokes (linear application, layer normalization,
activation, addition, and the external self-attention block), so that two
tensors are equal exactly when the encoder built them by the same sequence of
operations from the same inputs and parameters.  Rust `i64` division panics
on a zero divisor, vector indexing panics out of bounds and `Option::unwrap`
panics on `None`; all three are modelled by `Option`, with `none` standing
for a panic of the forward call.
-/

namespace Albert

/-- Variable-store paths (`tch::nn::Path`): the list of segments accumulated by
the `/` operator on paths. -/
abbrev Path : Type := List String

/-- The `p / "name"` operator on paths. -/
def Path.child (p : Path) (s : String) : Path := p ++ [s]

/-- The `p / i` operator on paths for an integer index segment. -/
def Path.childIdx (p : Path) (i : Int) : Path := p ++ [toString i]

/-- The activation variants of `AlbertConfig::hidden_act`
(`crate::albert::albert::Activation`). -/
inductive Activation where
  | gelu_new
  | gelu
  | relu
  | mish
  deriving DecidableEq, Repr

/-- Parameters of one `nn::Linear` layer, identified by the path it was created
at and its dimensions. -/
structure LinearParams where
  path : Path
  in_dim : Int
  out_dim : Int
  deriving DecidableEq, Repr

/-- Parameters of one `nn::LayerNorm` layer: creation path, normalized shape and
the `eps` field of its `nn::LayerNormConfig`. -/
structure LayerNormParams where
  path : Path
  normalized_shape : List Int
  eps : Rat
  deriving DecidableEq, Repr

/-- Symbolic tensors: the free term algebra over the tensor operations the
encoder performs.  `attnOutput*`/`attnWeights*` are the two results of the
external self-attention block (`AlbertSelfAttention::forward_t`), applied to a
hidden state, an optional mask and the `train` flag; the optional mask is
encoded by the masked/unmasked constructor pair (an `Option Tensor` field
would make the inductive nested, defeating derived decidable equality). -/
inductive Tensor where
  | input (id : Nat)
  | applyLinear (params : LinearParams) (t : Tensor)
  | applyNorm (params : LayerNormParams) (t : Tensor)
  | actOp (a : Activation) (t : Tensor)
  | add (lhs rhs : Tensor)
  | attnOutput (path : Path) (t : Tensor) (train : Bool)
  | attnOutputMasked (path : Path) (t : Tensor) (mask : Tensor) (train : Bool)
  | attnWeights (path : Path) (t : Tensor) (train : Bool)
  | attnWeightsMasked (path : Path) (t : Tensor) (mask : Tensor) (train : Bool)
  deriving DecidableEq, Repr

/-- The attention-output tensor of the self-attention block on hidden state `t`
with optional mask `mask`. -/
def Tensor.attnOut (p : Path) (t : Tensor) (mask : Option Tensor) (train : Bool) : Tensor :=
  match mask with
  | none => Tensor.attnOutput p t train
  | some m => Tensor.attnOutputMasked p t m train

/-- The attention-weights tensor of the self-attention block on hidden state `t`
with optional mask `mask`. -/
def Tensor.attnW (p : Path) (t : Tensor) (mask : Option Tensor) (train : Bool) : Tensor :=
  match mask with
  | none => Tensor.attnWeights p t train
  | some m => Tensor.attnWeightsMasked p t m train

/-- Value-level model of `Tensor::copy`: a fresh tensor with the same values. -/
def Tensor.copy (t : Tensor) : Tensor := t

/-- Model of `tensor.apply(&linear)`. -/
def Tensor.apply (t : Tensor) (l : LinearParams) : Tensor := Tensor.applyLinear l t

/-- Model of `tensor.apply(&layer_norm)`. -/
def Tensor.applyLn (t : Tensor) (l : LayerNormParams) : Tensor := Tensor.applyNorm l t

/-- Model of `nn::linear(path, in_dim, out_dim, Default::default())`. -/
def nnLinear (p : Path) (in_dim out_dim : Int) : LinearParams := ⟨p, in_dim, out_dim⟩

/-- Model of `nn::layer_norm(path, shape, config)` with the given `eps`. -/
def nnLayerNorm (p : Path) (shape : List Int) (eps : Rat) : LayerNormParams := ⟨p, shape, eps⟩

/-- Activation `_gelu_new` from `crate::common::activations`. -/
def _gelu_new (t : Tensor) : Tensor := Tensor.actOp Activation.gelu_new t

/-- Activation `_gelu` from `crate::common::activations`. -/
def _gelu (t : Tensor) : Tensor := Tensor.actOp Activation.gelu t

/-- Activation `_relu` from `crate::common::activations`. -/
def _relu (t : Tensor) : Tensor := Tensor.actOp Activation.relu t

/-- Activation `_mish` from `crate::common::activations`. -/
def _mish (t : Tensor) : Tensor := Tensor.actOp Activation.mish t

/-- Truncating division on `i64` values: Rust `/` on integers truncates toward
zero and panics when the divisor is zero (modelled as `none`).  The operands
reaching it in this file are configuration counts and loop indices, far from
the `i64::MIN / -1` overflow case, which is therefore not modelled. -/
def i64Div (a b : Int) : Option Int :=
  if b = 0 then none else some (Int.tdiv a b)

/-- Indexing `v[i as usize]` for an `i64` index `i`: a negative `i` wraps under
`as usize` to a value at least `2^63`, which is out of bounds for every vector
built here, and an out-of-bounds index panics (modelled as `none`). -/
def indexI64 {α : Type} (l : List α) (i : Int) : Option α :=
  if i < 0 then none else l.get? i.toNat

/-- The list of indices traversed by the Rust loop `for i in 0..n` on `i64`. -/
def intRange (n : Int) : List Int :=
  List.map (fun k : Nat => (k : Int)) (List.range n.toNat)

/-- Sanity check that `Int.tdiv` agrees with Rust `i64` division on sample
values: truncation toward zero. -/
theorem i64Div_truncates :
    i64Div 7 2 = some 3 ∧ i64Div (-7) 2 = some (-3) ∧ i64Div 0 5 = some 0 ∧
      i64Div 7 0 = none := by
  decide

/-- The fields of `AlbertConfig` consumed by the encoder.  `layer_norm_eps` is
`Option<f64>` in the source; the epsilon values are carried symbolically as
rationals, since the encoder only stores and compares them, never computes
with them. -/
structure AlbertConfig where
  hidden_act : Activation
  hidden_size : Int
  embedding_size : Int
  intermediate_size : Int
  inner_group_num : Int
  num_hidden_layers : Int
  num_hidden_groups : Int
  layer_norm_eps : Option Rat
  output_attentions : Option Bool
  output_hidden_states : Option Bool
  deriving DecidableEq, Repr

/-- Modelled from the spec: the Self-Attention Block (`AlbertSelfAttention`,
`src/albert/attention.rs`) is an external collaborator outside this core.  Per
the spec it exposes `forward(hidden_states, mask, train) -> (Tensor,
Optional<Tensor>)`, producing updated hidden states and, exactly when
`output_attentions` is set in the configuration it was built from, the
attention-weights tensor — per the spec, the weights are only materialized
into a returned value when the flag is set. -/
structure AlbertSelfAttention where
  path : Path
  output_attentions : Bool
  deriving DecidableEq, Repr

/-- Modelled from the spec: construction of the external self-attention block
at path `p` from the configuration. -/
def AlbertSelfAttention.new (p : Path) (config : AlbertConfig) : AlbertSelfAttention :=
  ⟨p, match config.output_attentions with
      | some value => value
      | none => false⟩

/-- Modelled from the spec: the self-attention block's forward operation. -/
def AlbertSelfAttention.forward_t (self : AlbertSelfAttention) (hidden_states : Tensor)
    (mask : Option Tensor) (train : Bool) : Tensor × Option Tensor :=
  (Tensor.attnOut self.path hidden_states mask train,
   if self.output_attentions then some (Tensor.attnW self.path hidden_states mask train) else none)

/-- The `AlbertLayer` struct (one transformer block).  The source stores the
activation as a boxed function chosen by a `match` on `config.hidden_act`;
here the chosen variant tag is stored and the same `match` is performed by
`runActivation` at application time (the set is closed, so the two are
pointwise equal). -/
structure AlbertLayer where
  attention : AlbertSelfAttention
  full_layer_layer_norm : LayerNormParams
  ffn : LinearParams
  ffn_output : LinearParams
  activation : Activation
  deriving DecidableEq, Repr

/-- The `match` in `AlbertLayer::new` that selects one of `_gelu_new`, `_gelu`,
`_relu`, `_mish` for the boxed activation. -/
def runActivation (a : Activation) : Tensor → Tensor :=
  match a with
  | Activation.gelu_new => _gelu_new
  | Activation.gelu => _gelu
  | Activation.relu => _relu
  | Activation.mish => _mish

/-- The numeric value `1e-12`, the source's default layer-norm epsilon, as an
explicit reduced fraction (kept in normal form so that kernel evaluation of
equality on layer parameters never has to normalize a fraction). -/
def defaultLayerNormEps : Rat := ⟨1, 1000000000000, by norm_num, Nat.coprime_one_left _⟩

/-- Embedding of `AlbertLayer::new`. -/
def AlbertLayer.new (p : Path) (config : AlbertConfig) : AlbertLayer :=
  let attention := AlbertSelfAttention.new (Path.child p "attention") config
  let layer_norm_eps := match config.layer_norm_eps with
    | some value => value
    | none => defaultLayerNormEps
  let full_layer_layer_norm :=
    nnLayerNorm (Path.child p "full_layer_layer_norm") [config.hidden_size] layer_norm_eps
  let ffn := nnLinear (Path.child p "ffn") config.hidden_size config.intermediate_size
  let ffn_output := nnLinear (Path.child p "ffn_output") config.intermediate_size config.hidden_size
  ⟨attention, full_layer_layer_norm, ffn, ffn_output, config.hidden_act⟩

/-- Embedding of `AlbertLayer::forward_t`. -/
def AlbertLayer.forward_t (self : AlbertLayer) (hidden_states : Tensor)
    (mask : Option Tensor) (train : Bool) : Tensor × Option Tensor :=
  let att := self.attention.forward_t hidden_states mask train
  let attention_output := att.1
  let attention_weights := att.2
  let ffn_output := attention_output.apply self.ffn
  let ffn_output := runActivation self.activation ffn_output
  let ffn_output := ffn_output.apply self.ffn_output
  let ffn_output := (Tensor.add ffn_output attention_output).applyLn self.full_layer_layer_norm
  (ffn_output, attention_weights)

/-- The `AlbertLayerGroup` struct. -/
structure AlbertLayerGroup where
  output_hidden_states : Bool
  output_attentions : Bool
  layers : List AlbertLayer
  deriving DecidableEq, Repr

/-- Embedding of `AlbertLayerGroup::new`. -/
def AlbertLayerGroup.new (p : Path) (config : AlbertConfig) : AlbertLayerGroup :=
  let p := Path.child p "albert_layers"
  let output_attentions := match config.output_attentions with
    | some value => value
    | none => false
  let output_hidden_states := match config.output_hidden_states with
    | some value => value
    | none => false
  let layers := (List.range config.inner_group_num.toNat).map
    (fun layer_index => AlbertLayer.new (Path.childIdx p (Int.ofNat layer_index)) config)
  ⟨output_hidden_states, output_attentions, layers⟩

/-- The `loop`/`match` over `self.layers.iter()` in
`AlbertLayerGroup::forward_t`, threading the three mutable locals.  The push
into `all_attentions` performs `attention_weights.as_ref().unwrap().copy()`;
the `unwrap` panic is the `none` result. -/
def AlbertLayerGroup.run (mask : Option Tensor) (train : Bool) :
    Tensor → Option (List Tensor) → Option (List Tensor) → List AlbertLayer →
    Option (Tensor × Option (List Tensor) × Option (List Tensor))
  | hidden_state, all_hidden_states, all_attentions, [] =>
    some (hidden_state, all_hidden_states, all_attentions)
  | hidden_state, all_hidden_states, all_attentions, layer :: rest =>
    let all_hidden_states := all_hidden_states.map (fun hs => hs ++ [hidden_state.copy])
    let temp := layer.forward_t hidden_state mask train
    let attention_weights := temp.2
    match all_attentions with
    | none => AlbertLayerGroup.run mask train temp.1 all_hidden_states none rest
    | some attentions =>
      match attention_weights with
      | none => none
      | some w =>
        AlbertLayerGroup.run mask train temp.1 all_hidden_states
          (some (attentions ++ [w.copy])) rest

/-- Embedding of `AlbertLayerGroup::forward_t`. -/
def AlbertLayerGroup.forward_t (self : AlbertLayerGroup) (hidden_states : Tensor)
    (mask : Option Tensor) (train : Bool) :
    Option (Tensor × Option (List Tensor) × Option (List Tensor)) :=
  let all_hidden_states : Option (List Tensor) :=
    if self.output_hidden_states then some [] else none
  let all_attentions : Option (List Tensor) :=
    if self.output_attentions then some [] else none
  AlbertLayerGroup.run mask train hidden_states.copy all_hidden_states all_attentions self.layers

/-- The `AlbertTransformer` struct (the encoder stack). -/
structure AlbertTransformer where
  output_hidden_states : Bool
  output_attentions : Bool
  num_hidden_layers : Int
  num_hidden_groups : Int
  embedding_hidden_mapping_in : LinearParams
  layers : List AlbertLayerGroup
  deriving DecidableEq, Repr

/-- Embedding of `AlbertTransformer::new`.  Note the construction loop runs
over `config.inner_group_num` (as the source does), not over
`config.num_hidden_groups`. -/
def AlbertTransformer.new (p : Path) (config : AlbertConfig) : AlbertTransformer :=
  let p_layers := Path.child p "albert_layer_groups"
  let output_attentions := match config.output_attentions with
    | some value => value
    | none => false
  let output_hidden_states := match config.output_hidden_states with
    | some value => value
    | none => false
  let embedding_hidden_mapping_in :=
    nnLinear (Path.child p "embedding_hidden_mapping_in") config.embedding_size config.hidden_size
  let layers := (List.range config.inner_group_num.toNat).map
    (fun layer_index => AlbertLayerGroup.new (Path.childIdx p_layers (Int.ofNat layer_index)) config)
  ⟨output_hidden_states, output_attentions, config.num_hidden_layers, config.num_hidden_groups,
   embedding_hidden_mapping_in, layers⟩

/-- The group-index computation `i / (self.num_hidden_layers /
self.num_hidden_groups)` of `AlbertTransformer::forward_t`: both divisions are
truncating `i64` divisions, each panicking on a zero divisor. -/
def groupIdx (num_hidden_layers num_hidden_groups i : Int) : Option Int :=
  match i64Div num_hidden_layers num_hidden_groups with
  | none => none
  | some step => i64Div i step

/-- The `for i in 0..self.num_hidden_layers` loop of
`AlbertTransformer::forward_t`, threading the three mutable locals.  At each
step the source takes `temp.1` — the *hidden-states history* component of the
group's triple, not `temp.2`, the attentions — binds it to a variable named
`attention_weights`, and `unwrap`s it into `all_attentions` (the `unwrap`
panic is the `none` result). -/
def AlbertTransformer.run (self : AlbertTransformer) (mask : Option Tensor) (train : Bool) :
    Tensor → Option (List Tensor) → Option (List (List Tensor)) → List Int →
    Option (Tensor × Option (List Tensor) × Option (List (List Tensor)))
  | hidden_state, all_hidden_states, all_attentions, [] =>
    some (hidden_state, all_hidden_states, all_attentions)
  | hidden_state, all_hidden_states, all_attentions, i :: rest =>
    match groupIdx self.num_hidden_layers self.num_hidden_groups i with
    | none => none
    | some idx =>
      match indexI64 self.layers idx with
      | none => none
      | some layer =>
        let all_hidden_states := all_hidden_states.map (fun hs => hs ++ [hidden_state.copy])
        match layer.forward_t hidden_state mask train with
        | none => none
        | some temp =>
          let attention_weights := temp.2.1
          match all_attentions with
          | none => AlbertTransformer.run self mask train temp.1 all_hidden_states none rest
          | some attentions =>
            match attention_weights with
            | none => none
            | some v =>
              AlbertTransformer.run self mask train temp.1 all_hidden_states
                (some (attentions ++ [v])) rest

/-- Embedding of `AlbertTransformer::forward_t`. -/
def AlbertTransformer.forward_t (self : AlbertTransformer) (hidden_states : Tensor)
    (mask : Option Tensor) (train : Bool) :
    Option (Tensor × Option (List Tensor) × Option (List (List Tensor))) :=
  let hidden_state := hidden_states.apply self.embedding_hidden_mapping_in
  let all_hidden_states : Option (List Tensor) :=
    if self.output_hidden_states then some [] else none
  let all_attentions : Option (List (List Tensor)) :=
    if self.output_attentions then some [] else none
  AlbertTransformer.run self mask train hidden_state all_hidden_states all_attentions
    (intRange self.num_hidden_layers)

/-!
Reference functions, written from the spec's description of the components
(§4.1–§4.3), used to state what the embedded code computes: the sequential
chain of blocks, the pre-block snapshots, the per-block attention weights,
and the per-depth-step pre-step hidden states of the stack.
-/

/-- Sequential application of a list of blocks (spec §4.2: the final output is
the hidden state after the last block). -/
def groupChainSpec (mask : Option Tensor) (train : Bool) : List AlbertLayer → Tensor → Tensor
  | [], h => h
  | layer :: rest, h => groupChainSpec mask train rest (layer.forward_t h mask train).1

/-- The pre-block snapshots of a block sequence (spec §4.2: before each block
invocation append a copy of the current input). -/
def preBlockStatesSpec (mask : Option Tensor) (train : Bool) :
    List AlbertLayer → Tensor → List Tensor
  | [], _ => []
  | layer :: rest, h => h :: preBlockStatesSpec mask train rest (layer.forward_t h mask train).1

/-- The attention-weights tensors produced by each block of a sequence, in
order (spec §4.2: after each block invocation append the block's produced
attention-weights tensor). -/
def blockAttnHistorySpec (mask : Option Tensor) (train : Bool) :
    List AlbertLayer → Tensor → List Tensor
  | [], _ => []
  | layer :: rest, h =>
    Tensor.attnW layer.attention.path h mask train ::
      blockAttnHistorySpec mask train rest (layer.forward_t h mask train).1

/-- The pre-step hidden states of the stack's depth loop (spec §4.3 step 2b):
for each depth index the current hidden state before that step's group is
applied; `none` when some step of the loop would panic. -/
def stackStates (self : AlbertTransformer) (mask : Option Tensor) (train : Bool) :
    Tensor → List Int → Option (List Tensor)
  | _, [] => some []
  | h, i :: rest =>
    match groupIdx self.num_hidden_layers self.num_hidden_groups i with
    | none => none
    | some idx =>
      match indexI64 self.layers idx with
      | none => none
      | some layer =>
        match layer.forward_t h mask train with
        | none => none
        | some temp => (stackStates self mask train temp.1 rest).map (fun tr => h :: tr)

/-- Manually invoking one layer group's forward and keeping its final hidden
state (spec §8: re-invoking that one group's forward repeatedly); on a group
whose forward panics this is the identity, a case that never arises for
groups built by `AlbertLayerGroup.new`. -/
def groupForwardHidden (g : AlbertLayerGroup) (mask : Option Tensor) (train : Bool)
    (h : Tensor) : Tensor :=
  match g.forward_t h mask train with
  | some temp => temp.1
  | none => h

/-!
Concrete configurations (sizes follow the spec §8 scenario:
`hidden_size = 4, embedding_size = 4, intermediate_size = 8,
inner_group_num = 1`) used to evaluate the code on explicit inputs.
-/

/-- Two depth steps, one group, both diagnostic flags absent. -/
def cfgNoFlags : AlbertConfig :=
  ⟨Activation.gelu_new, 4, 4, 8, 1, 2, 1, none, none, none⟩

/-- Two depth steps, one group, `output_hidden_states` alone enabled. -/
def cfgHiddenOnly : AlbertConfig :=
  ⟨Activation.gelu_new, 4, 4, 8, 1, 2, 1, none, some false, some true⟩

/-- One depth step, one group, `output_attentions` alone enabled. -/
def cfgAttnOnly : AlbertConfig :=
  ⟨Activation.gelu_new, 4, 4, 8, 1, 1, 1, none, some true, some false⟩

/-- One depth step, one group, both diagnostic flags enabled. -/
def cfgBothFlags : AlbertConfig :=
  ⟨Activation.gelu_new, 4, 4, 8, 1, 1, 1, none, some true, some true⟩

/-- Two depth steps, two declared groups but `inner_group_num = 1`. -/
def cfgTwoGroups : AlbertConfig :=
  ⟨Activation.gelu_new, 4, 4, 8, 1, 2, 2, none, none, none⟩

/-- One depth step, zero groups. -/
def cfgZeroGroups : AlbertConfig :=
  ⟨Activation.gelu_new, 4, 4, 8, 1, 1, 0, none, none, none⟩

/-- The forward result of the stack built from `cfgNoFlags` on `input 0`. -/
def resNoFlags : Tensor × Option (List Tensor) × Option (List (List Tensor)) :=
  ((AlbertTransformer.new [] cfgNoFlags).forward_t (Tensor.input 0) none false).getD
    (Tensor.input 0, none, none)

/-- The forward result of the stack built from `cfgHiddenOnly` on `input 0`. -/
def resHiddenOnly : Tensor × Option (List Tensor) × Option (List (List Tensor)) :=
  ((AlbertTransformer.new [] cfgHiddenOnly).forward_t (Tensor.input 0) none false).getD
    (Tensor.input 0, none, none)

/-- The group at index `0` of the stack built from `cfgNoFlags`. -/
def grpNoFlags : AlbertLayerGroup :=
  (indexI64 (AlbertTransformer.new [] cfgNoFlags).layers 0).getD
    (AlbertLayerGroup.new [] cfgNoFlags)

/-! Helper lemmas about the layer-group loop. -/

/-- With attention collection off, the group loop never panics and returns the
chained hidden state, extending any hidden-state history by the pre-block
snapshots. -/
theorem group_run_attn_none (mask : Option Tensor) (train : Bool) :
    ∀ (layers : List AlbertLayer) (h : Tensor) (hs : Option (List Tensor)),
    AlbertLayerGroup.run mask train h hs none layers =
      some (groupChainSpec mask train layers h,
        hs.map (fun a => a ++ preBlockStatesSpec mask train layers h), none) := by
  intro layers
  induction layers with
  | nil =>
    intro h hs
    cases hs <;> simp [AlbertLayerGroup.run, groupChainSpec, preBlockStatesSpec]
  | cons layer rest ih =>
    intro h hs
    cases hs <;>
      simp [AlbertLayerGroup.run, groupChainSpec, preBlockStatesSpec, ih, Tensor.copy,
        List.append_assoc]

/-- With attention collection on and every block's attention component built
with the flag set, the group loop never panics: it returns the chained hidden
state, the pre-block snapshots, and appends each block's weights. -/
theorem group_run_attn_some (mask : Option Tensor) (train : Bool) :
    ∀ (layers : List AlbertLayer),
    (∀ layer ∈ layers, layer.attention.output_attentions = true) →
    ∀ (h : Tensor) (hs : Option (List Tensor)) (acc : List Tensor),
    AlbertLayerGroup.run mask train h hs (some acc) layers =
      some (groupChainSpec mask train layers h,
        hs.map (fun a => a ++ preBlockStatesSpec mask train layers h),
        some (acc ++ blockAttnHistorySpec mask train layers h)) := by
  intro layers
  induction layers with
  | nil =>
    intro _ h hs acc
    cases hs <;>
      simp [AlbertLayerGroup.run, groupChainSpec, preBlockStatesSpec, blockAttnHistorySpec]
  | cons layer rest ih =>
    intro hall h hs acc
    have hflag : layer.attention.output_attentions = true := hall layer (by simp)
    have hrest : ∀ l ∈ rest, l.attention.output_attentions = true :=
      fun l hl => hall l (List.mem_cons_of_mem _ hl)
    cases hs <;>
      simp [AlbertLayerGroup.run, AlbertLayer.forward_t, AlbertSelfAttention.forward_t, hflag,
        groupChainSpec, preBlockStatesSpec, blockAttnHistorySpec, ih hrest, Tensor.copy,
        List.append_assoc]

/-- Every block of a group built by `AlbertLayerGroup.new` carries the same
`output_attentions` flag as the group itself. -/
theorem new_group_layer_flag (config : AlbertConfig) (p : Path) :
    ∀ layer ∈ (AlbertLayerGroup.new p config).layers,
      layer.attention.output_attentions = (AlbertLayerGroup.new p config).output_attentions := by
  intro layer hmem
  simp only [AlbertLayerGroup.new, List.mem_map] at hmem
  obtain ⟨i, _, rfl⟩ := hmem
  rfl

/-- A group built by `AlbertLayerGroup.new` never panics: its forward returns
the chained hidden state and, per enabled flag, the pre-block snapshots and
the per-block attention weights. -/
theorem group_forward_new (config : AlbertConfig) (p : Path) (h : Tensor)
    (mask : Option Tensor) (train : Bool) :
    (AlbertLayerGroup.new p config).forward_t h mask train =
      some (groupChainSpec mask train (AlbertLayerGroup.new p config).layers h,
        if (AlbertLayerGroup.new p config).output_hidden_states
          then some (preBlockStatesSpec mask train (AlbertLayerGroup.new p config).layers h)
          else none,
        if (AlbertLayerGroup.new p config).output_attentions
          then some (blockAttnHistorySpec mask train (AlbertLayerGroup.new p config).layers h)
          else none) := by
  have hflags := new_group_layer_flag config p
  cases hb : (AlbertLayerGroup.new p config).output_attentions with
  | false =>
    cases hc : (AlbertLayerGroup.new p config).output_hidden_states <;>
      simp [AlbertLayerGroup.forward_t, hb, hc, group_run_attn_none, Tensor.copy]
  | true =>
    have hall : ∀ layer ∈ (AlbertLayerGroup.new p config).layers,
        layer.attention.output_attentions = true := by
      intro l hl
      rw [hflags l hl, hb]
    cases hc : (AlbertLayerGroup.new p config).output_hidden_states <;>
      simp [AlbertLayerGroup.forward_t, hb, hc, group_run_attn_some mask train _ hall,
        Tensor.copy]

/-! Helper lemmas about the encoder-stack loop. -/

/-- Every layer group of a stack built by `AlbertTransformer.new` is a group
built by `AlbertLayerGroup.new` from the same configuration. -/
theorem transformer_new_group (config : AlbertConfig) (p : Path) :
    ∀ g ∈ (AlbertTransformer.new p config).layers, ∃ q, g = AlbertLayerGroup.new q config := by
  intro g hg
  simp only [AlbertTransformer.new, List.mem_map] at hg
  obtain ⟨i, _, rfl⟩ := hg
  exact ⟨_, rfl⟩

/-- A group built by `AlbertLayerGroup.new` and a stack built by
`AlbertTransformer.new` from the same configuration resolve the two output
flags identically. -/
theorem group_transformer_flags (config : AlbertConfig) (p q : Path) :
    (AlbertLayerGroup.new q config).output_hidden_states
        = (AlbertTransformer.new p config).output_hidden_states ∧
      (AlbertLayerGroup.new q config).output_attentions
        = (AlbertTransformer.new p config).output_attentions :=
  ⟨rfl, rfl⟩

/-- A successful index into a list yields a member. -/
theorem indexI64_mem {α : Type} {l : List α} {i : Int} {a : α}
    (h : indexI64 l i = some a) : a ∈ l := by
  unfold indexI64 at h
  split at h
  · cases h
  · exact List.get?_mem h

/-- With both histories absent, a successful stack loop returns both histories
absent. -/
theorem transformer_run_no_flags (self : AlbertTransformer) (mask : Option Tensor)
    (train : Bool) :
    ∀ (l : List Int) (h : Tensor)
      (r : Tensor × Option (List Tensor) × Option (List (List Tensor))),
    AlbertTransformer.run self mask train h none none l = some r →
    r.2.1 = none ∧ r.2.2 = none := by
  intro l
  induction l with
  | nil =>
    intro h r hr
    simp only [AlbertTransformer.run, Option.some.injEq] at hr
    rw [← hr]
    exact ⟨rfl, rfl⟩
  | cons i rest ih =>
    intro h r hr
    rw [AlbertTransformer.run] at hr
    cases hgi : groupIdx self.num_hidden_layers self.num_hidden_groups i with
    | none => simp [hgi] at hr
    | some idx =>
      simp only [hgi] at hr
      cases hix : indexI64 self.layers idx with
      | none => simp [hix] at hr
      | some layer =>
        simp only [hix] at hr
        cases hf : layer.forward_t h mask train with
        | none => simp [hf] at hr
        | some temp =>
          exact ih temp.1 r (by simpa [hf, Option.map, Tensor.copy] using hr)

/-- With only the hidden-state history present, a successful stack loop
returns no attentions history and extends the hidden-state history by exactly
the pre-step hidden states, one per depth index. -/
theorem transformer_run_hidden_only (self : AlbertTransformer) (mask : Option Tensor)
    (train : Bool) :
    ∀ (l : List Int) (h : Tensor) (acc : List Tensor)
      (r : Tensor × Option (List Tensor) × Option (List (List Tensor))),
    AlbertTransformer.run self mask train h (some acc) none l = some r →
    ∃ tr, stackStates self mask train h l = some tr ∧ r.2.1 = some (acc ++ tr) ∧
      r.2.2 = none ∧ tr.length = l.length := by
  intro l
  induction l with
  | nil =>
    intro h acc r hr
    simp only [AlbertTransformer.run, Option.some.injEq] at hr
    rw [← hr]
    exact ⟨[], rfl, by simp, rfl, rfl⟩
  | cons i rest ih =>
    intro h acc r hr
    rw [AlbertTransformer.run] at hr
    cases hgi : groupIdx self.num_hidden_layers self.num_hidden_groups i with
    | none => simp [hgi] at hr
    | some idx =>
      simp only [hgi] at hr
      cases hix : indexI64 self.layers idx with
      | none => simp [hix] at hr
      | some layer =>
        simp only [hix] at hr
        cases hf : layer.forward_t h mask train with
        | none => simp [hf] at hr
        | some temp =>
          obtain ⟨tr, htr, h1, h2, h3⟩ :=
            ih temp.1 (acc ++ [h]) r (by simpa [hf, Option.map, Tensor.copy] using hr)
          refine ⟨h :: tr, ?_, by simpa using h1, h2, by simp [h3]⟩
          rw [stackStates]
          simp [hgi, hix, hf, htr]

/-- When every traversed depth index selects group `0`, a successful stack
loop computes its final hidden state by iterating group `0`'s forward. -/
theorem transformer_run_iterate (self : AlbertTransformer) (mask : Option Tensor)
    (train : Bool) (g0 : AlbertLayerGroup) (hg : indexI64 self.layers 0 = some g0) :
    ∀ (l : List Int),
    (∀ i ∈ l, groupIdx self.num_hidden_layers self.num_hidden_groups i = some (0 : Int)) →
    ∀ (h : Tensor) (hs : Option (List Tensor)) (as : Option (List (List Tensor)))
      (r : Tensor × Option (List Tensor) × Option (List (List Tensor))),
    AlbertTransformer.run self mask train h hs as l = some r →
    r.1 = (groupForwardHidden g0 mask train)^[l.length] h := by
  intro l
  induction l with
  | nil =>
    intro _ h hs as r hr
    simp only [AlbertTransformer.run, Option.some.injEq] at hr
    rw [← hr]
    rfl
  | cons i rest ih =>
    intro hall h hs as r hr
    have hrest : ∀ j ∈ rest, groupIdx self.num_hidden_layers self.num_hidden_groups j
        = some (0 : Int) := fun j hj => hall j (List.mem_cons_of_mem _ hj)
    have h0 : groupIdx self.num_hidden_layers self.num_hidden_groups i = some (0 : Int) :=
      hall i (by simp)
    rw [AlbertTransformer.run] at hr
    simp only [h0, hg] at hr
    cases hf : g0.forward_t h mask train with
    | none => simp [hf] at hr
    | some temp =>
      simp only [hf] at hr
      have hstep : groupForwardHidden g0 mask train h = temp.1 := by
        rw [groupForwardHidden, hf]
      rw [List.length_cons, Function.iterate_succ_apply, hstep]
      cases as with
      | none => exact ih hrest temp.1 _ none r (by simpa using hr)
      | some attns =>
        cases hw : temp.2.1 with
        | none => simp [hw] at hr
        | some v => exact ih hrest temp.1 _ _ r (by simpa [hw] using hr)

/-- The loop `0..n` traverses `n` indices (none when `n ≤ 0`). -/
theorem intRange_length (n : Int) : (intRange n).length = n.toNat := by
  rw [intRange, List.length_map, List.length_range]

/-- Members of the loop range `0..n` are the integers in `[0, n)`. -/
theorem intRange_mem {n i : Int} (h : i ∈ intRange n) : 0 ≤ i ∧ i < n := by
  simp only [intRange, List.mem_map, List.mem_range] at h
  obtain ⟨k, hk, rfl⟩ := h
  omega

/-- With one single group (`num_hidden_groups = 1`), the group index of every
depth step `0 ≤ i < L` is `0`. -/
theorem groupIdx_single (L i : Int) (h0 : 0 ≤ i) (hi : i < L) :
    groupIdx L 1 i = some 0 := by
  have hL : ¬ (L = 0) := by omega
  simp [groupIdx, i64Div, hL, Int.tdiv_one, Int.tdiv_eq_zero_of_lt h0 hi]

/-!
The claims.
-/

/-- C4: for every input, the Transformer Block's forward computes, in order:
self-attention producing `attention_output` and optional `attention_weights`;
the `hidden_size → intermediate_size` projection of `attention_output`; the
configured activation elementwise; the `intermediate_size → hidden_size`
output projection; addition of that result to `attention_output` (not to the
original block input); layer normalization of the sum with epsilon the
configured `layer_norm_eps`, defaulting to `1e-12` when absent; and it
returns the normalized tensor together with the attention weights from the
first step unchanged. -/
theorem albertLayer_forward_spec (config : AlbertConfig) (p : Path) (h : Tensor)
    (mask : Option Tensor) (train : Bool) :
    (AlbertLayer.new p config).forward_t h mask train =
      (Tensor.applyNorm (AlbertLayer.new p config).full_layer_layer_norm
        (Tensor.add
          (Tensor.apply
            (runActivation config.hidden_act
              (Tensor.apply ((AlbertLayer.new p config).attention.forward_t h mask train).1
                (AlbertLayer.new p config).ffn))
            (AlbertLayer.new p config).ffn_output)
          ((AlbertLayer.new p config).attention.forward_t h mask train).1),
       ((AlbertLayer.new p config).attention.forward_t h mask train).2) ∧
    defaultLayerNormEps = (1 : Rat) / 1000000000000 ∧
    (AlbertLayer.new p config).full_layer_layer_norm.eps =
      config.layer_norm_eps.getD defaultLayerNormEps ∧
    (AlbertLayer.new p config).full_layer_layer_norm.normalized_shape = [config.hidden_size] ∧
    (AlbertLayer.new p config).ffn.in_dim = config.hidden_size ∧
    (AlbertLayer.new p config).ffn.out_dim = config.intermediate_size ∧
    (AlbertLayer.new p config).ffn_output.in_dim = config.intermediate_size ∧
    (AlbertLayer.new p config).ffn_output.out_dim = config.hidden_size := by
  refine ⟨rfl, ?_, ?_, rfl, rfl, rfl, rfl, rfl⟩
  · rw [defaultLayerNormEps, Rat.mk'_eq_divInt, Rat.divInt_eq_div]
    norm_num
  · have heq : (AlbertLayer.new p config).full_layer_layer_norm.eps =
        match config.layer_norm_eps with
        | some value => value
        | none => defaultLayerNormEps := rfl
    rw [heq]
    cases config.layer_norm_eps <;> rfl

/-- C5: every depth step `i` of the Encoder Stack selects the group at index
`i / (num_hidden_layers / num_hidden_groups)`, both divisions truncating; in
particular, when `num_hidden_groups = num_hidden_layers`, the group index
equals the depth index at every step. -/
theorem groupIdx_spec (L G i : Int) :
    (G ≠ 0 ∧ Int.tdiv L G ≠ 0 → groupIdx L G i = some (Int.tdiv i (Int.tdiv L G))) ∧
    (G = L ∧ 0 ≤ i ∧ i < L → groupIdx L G i = some i) := by
  constructor
  · rintro ⟨hG, hstep⟩
    simp [groupIdx, i64Div, hG, hstep]
  · rintro ⟨rfl, h0, hi⟩
    have hL : ¬ (G = 0) := by omega
    simp [groupIdx, i64Div, hL, Int.tdiv_self hL, Int.tdiv_one]

/-- Witness for C5 at `L = 12, G = 4, i = 7` (general formula, `7 / 3 = 2`)
and `L = G = 6, i = 5` (no sharing: group index equals depth index). -/
theorem groupIdx_spec_witness :
    groupIdx 12 4 7 = some 2 ∧ groupIdx 6 6 5 = some 5 :=
  ⟨(groupIdx_spec 12 4 7).1 (by decide), (groupIdx_spec 6 6 5).2 (by decide)⟩

/-- C6: the Layer Group's forward applies its `inner_group_num` blocks
strictly in sequence; with hidden-state collection enabled it records a copy
of the current input before each block (pre-block snapshot), with attention
collection enabled it records each block's produced attention-weights tensor
after the block, its final hidden state is the state after the last block,
and both histories have length `inner_group_num`. -/
theorem albertLayerGroup_forward_spec (config : AlbertConfig) (p : Path) (h : Tensor)
    (mask : Option Tensor) (train : Bool) :
    (AlbertLayerGroup.new p config).layers.length = config.inner_group_num.toNat ∧
    (AlbertLayerGroup.new p config).forward_t h mask train =
      some (groupChainSpec mask train (AlbertLayerGroup.new p config).layers h,
        if (AlbertLayerGroup.new p config).output_hidden_states
          then some (preBlockStatesSpec mask train (AlbertLayerGroup.new p config).layers h)
          else none,
        if (AlbertLayerGroup.new p config).output_attentions
          then some (blockAttnHistorySpec mask train (AlbertLayerGroup.new p config).layers h)
          else none) ∧
    (preBlockStatesSpec mask train (AlbertLayerGroup.new p config).layers h).length =
      config.inner_group_num.toNat ∧
    (blockAttnHistorySpec mask train (AlbertLayerGroup.new p config).layers h).length =
      config.inner_group_num.toNat := by
  have hlen : (AlbertLayerGroup.new p config).layers.length = config.inner_group_num.toNat := by
    simp [AlbertLayerGroup.new]
  have hpre : ∀ (layers : List AlbertLayer) (t : Tensor),
      (preBlockStatesSpec mask train layers t).length = layers.length := by
    intro layers
    induction layers with
    | nil => intro t; rfl
    | cons layer rest ih => intro t; simp [preBlockStatesSpec, ih]
  have hatt : ∀ (layers : List AlbertLayer) (t : Tensor),
      (blockAttnHistorySpec mask train layers t).length = layers.length := by
    intro layers
    induction layers with
    | nil => intro t; rfl
    | cons layer rest ih => intro t; simp [blockAttnHistorySpec, ih]
  exact ⟨hlen, group_forward_new config p h mask train, by rw [hpre, hlen], by rw [hatt, hlen]⟩

/-- C3: with `output_attentions` enabled, `output_hidden_states` disabled and
at least one depth step, every call of the Encoder Stack's forward panics
(returns `none`): at the first depth step the loop `unwrap`s the Layer
Group's second returned component — the optional hidden-states history,
`None` under this configuration — rather than the group's third component. -/
theorem transformer_attn_only_panics (config : AlbertConfig) (p : Path) (h : Tensor)
    (mask : Option Tensor) (train : Bool)
    (ha : (AlbertTransformer.new p config).output_attentions = true)
    (hh : (AlbertTransformer.new p config).output_hidden_states = false)
    (hL : 1 ≤ (AlbertTransformer.new p config).num_hidden_layers) :
    (AlbertTransformer.new p config).forward_t h mask train = none := by
  obtain ⟨k, hk⟩ : ∃ k, (AlbertTransformer.new p config).num_hidden_layers.toNat = k + 1 :=
    ⟨(AlbertTransformer.new p config).num_hidden_layers.toNat - 1, by omega⟩
  obtain ⟨rest, hrange⟩ : ∃ rest,
      intRange (AlbertTransformer.new p config).num_hidden_layers = (0 : Int) :: rest := by
    refine ⟨List.map (fun m : Nat => ((m.succ : Nat) : Int)) (List.range k), ?_⟩
    rw [intRange, hk, List.range_succ_eq_map, List.map_cons, List.map_map]
    simp [Function.comp]
  simp only [AlbertTransformer.forward_t, ha, hh, Bool.false_eq_true, if_false, if_true, hrange]
  rw [AlbertTransformer.run]
  cases hgi : groupIdx (AlbertTransformer.new p config).num_hidden_layers
      (AlbertTransformer.new p config).num_hidden_groups 0 with
  | none => simp [hgi]
  | some idx =>
    simp only [hgi]
    cases hix : indexI64 (AlbertTransformer.new p config).layers idx with
    | none => simp [hix]
    | some g =>
      simp only [hix]
      obtain ⟨q, rfl⟩ := transformer_new_group config p g (indexI64_mem hix)
      have hgh : (AlbertLayerGroup.new q config).output_hidden_states = false :=
        (group_transformer_flags config p q).1.trans hh
      simp [group_forward_new, hgh]

/-- Witness for C3: a concrete configuration with `output_attentions = true`,
`output_hidden_states = false` and one depth step makes forward panic. -/
theorem transformer_attn_only_panics_witness :
    (AlbertTransformer.new [] cfgAttnOnly).forward_t (Tensor.input 0) none false = none :=
  transformer_attn_only_panics cfgAttnOnly [] (Tensor.input 0) none false rfl rfl (by decide)

/-- C7: with both diagnostic flags disabled, a (successful) call of the
Encoder Stack's forward returns `None` for both histories; with
`output_hidden_states` alone enabled it returns no attentions history and a
hidden-states history of exactly `num_hidden_layers` entries — the pre-step
hidden state of each depth step. -/
theorem transformer_histories_flags (self : AlbertTransformer) (h : Tensor)
    (mask : Option Tensor) (train : Bool)
    (r : Tensor × Option (List Tensor) × Option (List (List Tensor))) :
    (self.output_hidden_states = false → self.output_attentions = false →
      self.forward_t h mask train = some r → r.2.1 = none ∧ r.2.2 = none) ∧
    (self.output_hidden_states = true → self.output_attentions = false →
      self.forward_t h mask train = some r →
      r.2.2 = none ∧ ∃ tr, r.2.1 = some tr ∧ tr.length = self.num_hidden_layers.toNat ∧
        stackStates self mask train (Tensor.apply h self.embedding_hidden_mapping_in)
          (intRange self.num_hidden_layers) = some tr) := by
  constructor
  · intro hh ha hr
    simp only [AlbertTransformer.forward_t, hh, ha, Bool.false_eq_true, if_false] at hr
    exact transformer_run_no_flags self mask train _ _ r hr
  · intro hh ha hr
    simp only [AlbertTransformer.forward_t, hh, ha, Bool.false_eq_true, if_false, if_true] at hr
    obtain ⟨tr, htr, h1, h2, h3⟩ := transformer_run_hidden_only self mask train _ _ [] r hr
    exact ⟨h2, tr, by simpa using h1, by rw [h3, intRange_length], htr⟩

/-- C8: with a single parameter group (`num_hidden_groups = 1`), a successful
call of the Encoder Stack's forward computes its final hidden state by
projecting the input through the embedding-to-hidden layer and then invoking
the group at index `0` `num_hidden_layers` times in sequence. -/
theorem transformer_single_group_iterates (config : AlbertConfig) (p : Path) (h : Tensor)
    (mask : Option Tensor) (train : Bool)
    (r : Tensor × Option (List Tensor) × Option (List (List Tensor)))
    (g0 : AlbertLayerGroup)
    (hG : config.num_hidden_groups = 1)
    (hg : indexI64 (AlbertTransformer.new p config).layers 0 = some g0)
    (hr : (AlbertTransformer.new p config).forward_t h mask train = some r) :
    r.1 = (groupForwardHidden g0 mask train)^[config.num_hidden_layers.toNat]
      (Tensor.apply h (AlbertTransformer.new p config).embedding_hidden_mapping_in) := by
  have hGT : (AlbertTransformer.new p config).num_hidden_groups = 1 := hG
  have hall : ∀ i ∈ intRange (AlbertTransformer.new p config).num_hidden_layers,
      groupIdx (AlbertTransformer.new p config).num_hidden_layers
        (AlbertTransformer.new p config).num_hidden_groups i = some (0 : Int) := by
    intro i hi
    obtain ⟨h0, hlt⟩ := intRange_mem hi
    rw [hGT]
    exact groupIdx_single _ i h0 hlt
  simp only [AlbertTransformer.forward_t] at hr
  have hiter := transformer_run_iterate (AlbertTransformer.new p config) mask train g0 hg
    (intRange (AlbertTransformer.new p config).num_hidden_layers) hall _ _ _ r hr
  rw [hiter, intRange_length]
  rfl

/-- C9: with `num_hidden_groups = 0` and at least one depth step, the
group-index computation divides by zero at the first depth step, so the
Encoder Stack's forward fails and the failure propagates (returns `none`). -/
theorem transformer_zero_groups_panics (config : AlbertConfig) (p : Path) (h : Tensor)
    (mask : Option Tensor) (train : Bool)
    (hG : config.num_hidden_groups = 0) (hL : 1 ≤ config.num_hidden_layers) :
    (AlbertTransformer.new p config).forward_t h mask train = none := by
  obtain ⟨k, hk⟩ : ∃ k, config.num_hidden_layers.toNat = k + 1 :=
    ⟨config.num_hidden_layers.toNat - 1, by omega⟩
  obtain ⟨rest, hrange⟩ : ∃ rest,
      intRange (AlbertTransformer.new p config).num_hidden_layers = (0 : Int) :: rest := by
    refine ⟨List.map (fun m : Nat => ((m.succ : Nat) : Int)) (List.range k), ?_⟩
    show intRange config.num_hidden_layers = _
    rw [intRange, hk, List.range_succ_eq_map, List.map_cons, List.map_map]
    simp [Function.comp]
  have hdiv : groupIdx (AlbertTransformer.new p config).num_hidden_layers
      (AlbertTransformer.new p config).num_hidden_groups 0 = none := by
    show groupIdx config.num_hidden_layers config.num_hidden_groups 0 = none
    rw [hG]
    simp [groupIdx, i64Div]
  simp only [AlbertTransformer.forward_t, hrange]
  rw [AlbertTransformer.run]
  simp [hdiv]

/-- C10: two calls of the Encoder Stack's forward with identical parameters,
identical input values, the same mask and `train = false` produce identical
final hidden states and identical diagnostic histories (the embedding is a
pure function of parameters and inputs; no randomness is modelled with
training disabled). -/
theorem transformer_forward_deterministic (T₁ T₂ : AlbertTransformer) (h₁ h₂ : Tensor)
    (m₁ m₂ : Option Tensor) (hT : T₁ = T₂) (hh : h₁ = h₂) (hm : m₁ = m₂) :
    T₁.forward_t h₁ m₁ false = T₂.forward_t h₂ m₂ false := by
  rw [hT, hh, hm]

/-- Witness for C7: at `cfgNoFlags` both histories are `None`; at
`cfgHiddenOnly` the attentions history is `None` and the hidden-states
history holds the two pre-step hidden states. -/
theorem transformer_histories_flags_witness :
    ((AlbertTransformer.new [] cfgNoFlags).forward_t (Tensor.input 0) none false
        = some resNoFlags ∧ (resNoFlags.2.1 = none ∧ resNoFlags.2.2 = none)) ∧
    ((AlbertTransformer.new [] cfgHiddenOnly).forward_t (Tensor.input 0) none false
        = some resHiddenOnly ∧ (resHiddenOnly.2.2 = none ∧
      ∃ tr, resHiddenOnly.2.1 = some tr ∧
        tr.length = (AlbertTransformer.new [] cfgHiddenOnly).num_hidden_layers.toNat ∧
        stackStates (AlbertTransformer.new [] cfgHiddenOnly) none false
          (Tensor.apply (Tensor.input 0)
            (AlbertTransformer.new [] cfgHiddenOnly).embedding_hidden_mapping_in)
          (intRange (AlbertTransformer.new [] cfgHiddenOnly).num_hidden_layers) = some tr)) := by
  constructor
  · exact ⟨by decide, (transformer_histories_flags (AlbertTransformer.new [] cfgNoFlags)
      (Tensor.input 0) none false resNoFlags).1 rfl rfl (by decide)⟩
  · exact ⟨by decide, (transformer_histories_flags (AlbertTransformer.new [] cfgHiddenOnly)
      (Tensor.input 0) none false resHiddenOnly).2 rfl rfl (by decide)⟩

/-- Witness for C8 at `cfgNoFlags` (`num_hidden_groups = 1`,
`num_hidden_layers = 2`). -/
theorem transformer_single_group_iterates_witness :
    indexI64 (AlbertTransformer.new [] cfgNoFlags).layers 0 = some grpNoFlags ∧
    (AlbertTransformer.new [] cfgNoFlags).forward_t (Tensor.input 0) none false
      = some resNoFlags ∧
    resNoFlags.1 = (groupForwardHidden grpNoFlags none false)^[cfgNoFlags.num_hidden_layers.toNat]
      (Tensor.apply (Tensor.input 0)
        (AlbertTransformer.new [] cfgNoFlags).embedding_hidden_mapping_in) :=
  ⟨by decide, by decide,
    transformer_single_group_iterates cfgNoFlags [] (Tensor.input 0) none false resNoFlags
      grpNoFlags rfl (by decide) (by decide)⟩

/-- Witness for C9 at `cfgZeroGroups`. -/
theorem transformer_zero_groups_panics_witness :
    (AlbertTransformer.new [] cfgZeroGroups).forward_t (Tensor.input 0) none false = none :=
  transformer_zero_groups_panics cfgZeroGroups [] (Tensor.input 0) none false rfl (by decide)

/-- Witness for C10 at `cfgNoFlags`. -/
theorem transformer_forward_deterministic_witness :
    (AlbertTransformer.new [] cfgNoFlags).forward_t (Tensor.input 0) none false =
      (AlbertTransformer.new [] cfgNoFlags).forward_t (Tensor.input 0) none false :=
  transformer_forward_deterministic (AlbertTransformer.new [] cfgNoFlags)
    (AlbertTransformer.new [] cfgNoFlags) (Tensor.input 0) (Tensor.input 0) none none
    rfl rfl rfl

/-- C1: evaluation of the stack at the configurations the claim covers.  With
`output_attentions` alone the call panics (`none`) instead of producing an
attentions history; with both flags on, the inner sequence appended at the
single depth step is the group's *hidden-states* history — here the projected
input snapshot, not an attention-weights tensor. -/
theorem transformer_attn_history_bug_eval :
    (AlbertTransformer.new [] cfgAttnOnly).forward_t (Tensor.input 0) none false = none ∧
    ((AlbertTransformer.new [] cfgBothFlags).forward_t (Tensor.input 0) none false).map
        (fun r => r.2.2) =
      some (some [[Tensor.applyLinear
        (nnLinear (Path.child [] "embedding_hidden_mapping_in") 4 4) (Tensor.input 0)]]) := by
  constructor <;> decide

/-- C2: the Encoder Stack's constructor builds `inner_group_num` Layer
Groups, not `num_hidden_groups`; with `num_hidden_layers = 2,
num_hidden_groups = 2, inner_group_num = 1` the stack owns a single group and
the second depth step's group index `1` is out of bounds, so forward
panics. -/
theorem transformer_group_count_eval :
    (∀ (config : AlbertConfig) (p : Path),
      (AlbertTransformer.new p config).layers.length = config.inner_group_num.toNat) ∧
    cfgTwoGroups.num_hidden_groups = 2 ∧
    (AlbertTransformer.new [] cfgTwoGroups).layers.length = 1 ∧
    (AlbertTransformer.new [] cfgTwoGroups).forward_t (Tensor.input 0) none false = none := by
  refine ⟨?_, rfl, rfl, by decide⟩
  intro config p
  simp [AlbertTransformer.new]

end Albert
